import Mathlib

/-!
Shallow embedding of the core of the Parseable log server
(`src/query/mod.rs`, `src/catalog/mod.rs`, `server/src/handlers/http/ingest.rs`,
`server/src/metrics/mod.rs`) together with proofs about the embedded
operations.  UTC instants (`DateTime<Utc>`, `NaiveDateTime`) are represented
as `Int` milliseconds since the Unix epoch, machine integers as `Nat`/`Int`
with explicit wrap-around where the source casts, and fallible paths as
`Except`/`Option` values.
-/

namespace Parseable

/-- The reserved default timestamp column key (`event::DEFAULT_TIMESTAMP_KEY`,
the implicit `p_timestamp` column described by the data model). -/
def DEFAULT_TIMESTAMP_KEY : String := "p_timestamp"

/-! ## Time bins of the counts engine (`CountsRequest` in `src/query/mod.rs`) -/

/-- `TimeBounds` from `src/query/mod.rs`.  The source's `end` field is called
`stop` here because `end` is a Lean keyword.  Both are UTC milliseconds. -/
structure TimeBounds where
  start : Int
  stop : Int
deriving DecidableEq

/-- `CountsRecord` from `src/query/mod.rs`.  The source renders `start_time`
and `end_time` with `to_rfc3339`; the embedding keeps the underlying
millisecond instants. -/
structure CountsRecord where
  start_time : Int
  end_time : Int
  count : Nat
deriving DecidableEq

/-- `chrono::Duration::num_minutes` applied to `end - start`: the whole number
of minutes, i.e. the millisecond difference divided by 60000 truncating
toward zero. -/
def num_minutes (s e : Int) : Int := (e - s).tdiv 60000

/-- Rust `as u64`: two's-complement wrap of a signed value into `[0, 2^64)`. -/
def u64_cast (n : Int) : Nat := (n % (2 ^ 64 : Int)).toNat

/-- Rust `as i64` applied to a `u64` value: two's-complement
reinterpretation, negative for values at or above `2^63`. -/
def i64_cast (n : Nat) : Int :=
  if n < 2 ^ 63 then (n : Int) else (n : Int) - 2 ^ 64

/-- The `total_minutes` computed at the top of `CountsRequest::get_bounds`. -/
def total_minutes (s e : Int) : Nat := u64_cast (num_minutes s e)

/-- The `for _ in 0..loop_end` loop of `CountsRequest::get_bounds`: emits `n`
bins of `Duration::minutes(q as i64)` each, threading the running `start`;
the second component is the value of `start` after the loop. -/
def boundsLoop (q : Nat) : Nat → Int → List TimeBounds × Int
  | 0, s => ([], s)
  | n + 1, s =>
    let rest := boundsLoop q n (s + 60000 * i64_cast q)
    (⟨s, s + 60000 * i64_cast q⟩ :: rest.1, rest.2)

/-- `CountsRequest::get_bounds`: divide the whole minutes of `[s, e)` by
`num_bins`, emit `loop_end` bins of `quotient` minutes, then one final bin of
`remainder` minutes when `remainder > 0` and of `quotient` minutes
otherwise.  The bin widths go through `Duration::minutes(.. as i64)`, so a
quotient or remainder at or above `2^63` (as arises when `end < start` wraps
through the `as u64` cast of `total_minutes`) yields a negative width. -/
def get_bounds (num_bins : Nat) (s e : Int) : List TimeBounds :=
  let totalMinutes := total_minutes s e
  let quotient := totalMinutes / num_bins
  let remainder := totalMinutes % num_bins
  let have_remainder := 0 < remainder
  let loop_end := if have_remainder then num_bins else num_bins - 1
  let main := boundsLoop quotient loop_end s
  main.1 ++
    [⟨main.2, main.2 + 60000 * i64_cast (if have_remainder then remainder else quotient)⟩]

/-- Bins as the specification words them: bin `i` starts `i * q` minutes after
`s`; every bin spans `q` minutes except a final `r`-minute bin at index
`num_bins`, present exactly when `r > 0`. -/
def specBounds (num_bins q r : Nat) (s : Int) : List TimeBounds :=
  (List.range (if r = 0 then num_bins else num_bins + 1)).map fun i =>
    { start := s + 60000 * ((q * i : Nat) : Int)
      stop := s + 60000 * ((q * i : Nat) : Int)
          + 60000 * (((if i = num_bins then r else q) : Nat) : Int) }

theorem i64_cast_eq (n : Nat) (h : n < 2 ^ 63) : i64_cast n = (n : Int) := by
  unfold i64_cast
  rw [if_pos h]

theorem boundsLoop_eq (q : Nat) : ∀ (n : Nat) (s : Int),
    boundsLoop q n s =
      (((List.range n).map fun (i : Nat) =>
          TimeBounds.mk (s + 60000 * i64_cast q * ((i : Nat) : Int))
            (s + 60000 * i64_cast q * (((i : Nat) : Int) + 1))),
        s + 60000 * i64_cast q * ((n : Nat) : Int))
  | 0, s => by simp [boundsLoop]
  | n + 1, s => by
    have ih := boundsLoop_eq q n (s + 60000 * i64_cast q)
    simp only [boundsLoop, ih, List.range_succ_eq_map, List.map_cons, List.map_map,
      Prod.mk.injEq, List.cons.injEq, TimeBounds.mk.injEq]
    refine ⟨⟨⟨by push_cast; ring, by push_cast; ring⟩, ?_⟩, by push_cast; ring⟩
    refine List.map_congr_left fun i _ => ?_
    simp only [Function.comp_apply, TimeBounds.mk.injEq]
    constructor <;> · push_cast; ring

/-- C3 helper: `get_bounds` written in the specification's bin-indexed form,
for requests whose whole-minute total is i64-representable (so the
`Duration::minutes(.. as i64)` casts are the identity). -/
theorem get_bounds_eq_specBounds (num_bins : Nat) (s e : Int)
    (h1 : 1 ≤ num_bins) (htot : total_minutes s e < 2 ^ 63) :
    get_bounds num_bins s e
      = specBounds num_bins (total_minutes s e / num_bins)
          (total_minutes s e % num_bins) s := by
  obtain ⟨m, rfl⟩ : ∃ m, num_bins = m + 1 := ⟨num_bins - 1, by omega⟩
  have hcq : i64_cast (total_minutes s e / (m + 1))
      = ((total_minutes s e / (m + 1) : Nat) : Int) :=
    i64_cast_eq _ (by have := Nat.div_le_self (total_minutes s e) (m + 1); omega)
  have hcr : i64_cast (total_minutes s e % (m + 1))
      = ((total_minutes s e % (m + 1) : Nat) : Int) :=
    i64_cast_eq _ (by have := Nat.mod_le (total_minutes s e) (m + 1); omega)
  simp only [get_bounds, specBounds, boundsLoop_eq, hcq, hcr]
  by_cases h0 : total_minutes s e % (m + 1) = 0
  · rw [if_neg (by omega : ¬ 0 < total_minutes s e % (m + 1)),
      if_neg (by omega : ¬ 0 < total_minutes s e % (m + 1)), hcq, if_pos h0,
      Nat.add_sub_cancel, List.range_succ, List.map_append]
    congr 1
    · refine List.map_congr_left fun i hi => ?_
      have hne : i ≠ m + 1 := by
        have := List.mem_range.mp hi; omega
      simp only [TimeBounds.mk.injEq, if_neg hne]
      constructor <;> · push_cast; ring
    · have hne2 : m ≠ m + 1 := by omega
      simp only [List.map_cons, List.map_nil, List.cons.injEq, TimeBounds.mk.injEq,
        if_neg hne2, and_true]
      constructor <;> · push_cast; ring
  · rw [if_pos (by omega : 0 < total_minutes s e % (m + 1)),
      if_pos (by omega : 0 < total_minutes s e % (m + 1)), hcr, if_neg h0,
      show List.range (m + 1 + 1) = List.range (m + 1) ++ [m + 1] from List.range_succ (m + 1),
      List.map_append]
    congr 1
    · refine List.map_congr_left fun i hi => ?_
      have hne : i ≠ m + 1 := by
        have := List.mem_range.mp hi; omega
      simp only [TimeBounds.mk.injEq, if_neg hne]
      constructor <;> · push_cast; ring
    · simp only [List.map_cons, List.map_nil, List.cons.injEq, TimeBounds.mk.injEq,
        if_pos rfl, and_true]
      constructor <;> · push_cast; ring

/-- Under `s ≤ e` with a representable span, `total_minutes` is the floor of
the millisecond span over 60000. -/
theorem total_minutes_eq (s e : Int) (h0 : 0 ≤ e - s) (h1 : e - s < 2 ^ 63) :
    (total_minutes s e : Int) = (e - s) / 60000 := by
  unfold total_minutes u64_cast num_minutes
  rw [Int.tdiv_eq_ediv h0 (by norm_num)]
  omega

/-! ## Catalog column statistics and manifests (`src/catalog/`) -/

/-- Modelled from the spec: `catalog::column::TypedStatistics` (the `column`
module is not among the source files; §3 of the spec lists the variants
`Int64 {min, max}`, `Float64 {min, max}`, `Utf8 {min, max}`, `Bool`).  Only
the Int64 payload is carried: the embedded operations consult no other
payload, and the Float64 payload is floating-point. -/
inductive TypedStatistics where
  | int (min max : Int)
  | float
  | utf8
  | bool
deriving DecidableEq

/-- Modelled from the spec: `catalog::column::Column` (§3: name, logical
type, optional typed statistics; a null-only column carries no stats). -/
structure Column where
  name : String
  stats : Option TypedStatistics
deriving DecidableEq

/-- Modelled from the spec: `catalog::manifest::File`, a manifest entry
(§3: file path, row count, sizes, per-column statistics). -/
structure File where
  file_path : String
  num_rows : Nat
  file_size : Nat
  ingestion_size : Nat
  columns : List Column
deriving DecidableEq

/-- Modelled from the spec: `catalog::manifest::Manifest`, a list of file
entries. -/
structure Manifest where
  files : List File
deriving DecidableEq

/-- The time-partition resolution at the top of `get_bin_density`:
`STREAM_INFO.get_time_partition(..).unwrap_or_else(|| DEFAULT_TIMESTAMP_KEY)`. -/
def resolve_time_partition (tp : Option String) : String :=
  tp.getD DEFAULT_TIMESTAMP_KEY

/-- The per-file condition inside `get_bin_density`'s bin loop: some column is
named by the time partition and carries Int64 statistics whose `min`
(converted from milliseconds) satisfies `bin.start <= min && bin.end >= min`. -/
def file_matches_bin (time_partition : String) (bin : TimeBounds) (f : File) : Bool :=
  f.columns.any fun c =>
    c.name == time_partition &&
      match c.stats with
      | some (.int min _) => decide (bin.start ≤ min) && decide (bin.stop ≥ min)
      | _ => false

/-- The per-bin count of `get_bin_density`: over all files of all downloaded
manifests, keep `num_rows` of the files matching the bin and sum. -/
def bin_count (time_partition : String) (manifests : List Manifest)
    (bin : TimeBounds) : Nat :=
  ((manifests.flatMap Manifest.files).filterMap fun f =>
    if file_matches_bin time_partition bin f then some f.num_rows else none).sum

/-- `CountsRequest::get_bin_density`, after the time range has been parsed and
the manifest files for it downloaded (both external to this module): one
`CountsRecord` per bin of `get_bounds`, counting rows from manifest
statistics only. -/
def get_bin_density (time_partition : Option String) (manifests : List Manifest)
    (num_bins : Nat) (s e : Int) : List CountsRecord :=
  let tp := resolve_time_partition time_partition
  (get_bounds num_bins s e).map fun bin =>
    { start_time := bin.start, end_time := bin.stop
      count := bin_count tp manifests bin }

/-- The specification's per-file, per-bin condition: the file has a column
named by the resolved time-partition field whose statistics are an Int64
statistic with `bin.start ≤ min ≤ bin.end`. -/
def specFileInBin (time_partition : String) (bin : TimeBounds) (f : File) : Prop :=
  ∃ c ∈ f.columns, c.name = time_partition ∧
    ∃ mn mx, c.stats = some (.int mn mx) ∧ bin.start ≤ mn ∧ mn ≤ bin.stop

theorem file_matches_bin_iff (tp : String) (bin : TimeBounds) (f : File) :
    file_matches_bin tp bin f = true ↔ specFileInBin tp bin f := by
  unfold file_matches_bin specFileInBin
  rw [List.any_eq_true]
  refine exists_congr fun c => and_congr_right fun _ => ?_
  cases hst : c.stats with
  | none => simp
  | some st =>
    cases st with
    | int mn mx =>
      simp only [Bool.and_eq_true, beq_iff_eq, decide_eq_true_eq, ge_iff_le]
      constructor
      · rintro ⟨h1, h2, h3⟩
        exact ⟨h1, mn, mx, rfl, h2, h3⟩
      · rintro ⟨h1, mn', mx', he, h2, h3⟩
        cases he
        exact ⟨h1, h2, h3⟩
    | float => simp
    | utf8 => simp
    | bool => simp

instance (tp : String) (bin : TimeBounds) (f : File) :
    Decidable (specFileInBin tp bin f) :=
  decidable_of_iff _ (file_matches_bin_iff tp bin f)

theorem filterMap_ite_sum {α : Type} (p : α → Bool) (w : α → Nat) (l : List α) :
    (l.filterMap fun x => if p x then some (w x) else none).sum
      = (l.map fun x => if p x then w x else 0).sum := by
  induction l with
  | nil => rfl
  | cons x l ih =>
    by_cases h : p x <;> simp [List.filterMap_cons, h, ih]

theorem map_ite_sum_eq_filter_sum {α : Type} (p : α → Bool) (w : α → Nat) (l : List α) :
    (l.map fun x => if p x then w x else 0).sum = ((l.filter p).map w).sum := by
  induction l with
  | nil => rfl
  | cons x l ih =>
    by_cases h : p x <;> simp [List.filter_cons, h, ih]

theorem file_matches_bin_eq_decide (tp : String) (bin : TimeBounds) (f : File) :
    file_matches_bin tp bin f = decide (specFileInBin tp bin f) := by
  by_cases h : specFileInBin tp bin f
  · rw [(file_matches_bin_iff tp bin f).mpr h, decide_eq_true h]
  · rw [decide_eq_false h, ← Bool.not_eq_true, file_matches_bin_iff]
    exact h

/-! ## Claim C3: bin layout of `get_bounds` -/

/-- C3 (amended): for `num_bins ≥ 1` and every time range with
`end ≥ start` and a representable span (under `2^63` ms, as every chrono
range is), `get_bounds` returns consecutive bins starting at `start`: with
`total` the whole minutes of `end - start`, `quotient = total / num_bins`
and `remainder = total % num_bins`, it returns `num_bins` bins of `quotient`
minutes when `remainder = 0` and `num_bins` bins of `quotient` minutes plus
an extra final `remainder`-minute bin otherwise; `num_bins = 1` yields
exactly one bin `[start, start + total minutes)`, which equals `[start,
end)` exactly when the span is a whole number of minutes. -/
theorem c3_get_bounds_binning (num_bins : Nat) (s e : Int) (h1 : 1 ≤ num_bins)
    (hs : s ≤ e) (hrep : e - s < 2 ^ 63) :
    get_bounds num_bins s e
      = specBounds num_bins (total_minutes s e / num_bins)
          (total_minutes s e % num_bins) s ∧
    (get_bounds num_bins s e).length
      = (if total_minutes s e % num_bins = 0 then num_bins else num_bins + 1) ∧
    (num_bins = 1 →
      get_bounds num_bins s e = [⟨s, s + 60000 * (total_minutes s e : Int)⟩]) ∧
    (num_bins = 1 → e - s = 60000 * (total_minutes s e : Int) →
      get_bounds num_bins s e = [⟨s, e⟩]) ∧
    (total_minutes s e : Int) = (e - s) / 60000 := by
  have htoteq : (total_minutes s e : Int) = (e - s) / 60000 :=
    total_minutes_eq s e (by omega) hrep
  have htot : total_minutes s e < 2 ^ 63 := by omega
  have hmain := get_bounds_eq_specBounds num_bins s e h1 htot
  have hone : num_bins = 1 →
      get_bounds num_bins s e = [⟨s, s + 60000 * (total_minutes s e : Int)⟩] := by
    rintro rfl
    rw [hmain]
    simp [specBounds, Nat.mod_one, Nat.div_one, List.range_succ]
  refine ⟨hmain, ?_, hone, ?_, htoteq⟩
  · rw [hmain]
    unfold specBounds
    by_cases h0 : total_minutes s e % num_bins = 0 <;> simp [h0]
  · intro hb he
    rw [hone hb, ← he]
    simp

/-- C3 counterexample: with `num_bins = 1`, `start = 0` and `end = 90000` ms
(one and a half minutes), the single returned bin is `[0, 60000)`, not
`[0, 90000)`: the sub-minute tail of the range is dropped, so the claimed
"exactly one bin covering [start, end)" fails. -/
theorem c3_get_bounds_counterexample :
    get_bounds 1 0 90000 = [⟨0, 60000⟩] ∧ get_bounds 1 0 90000 ≠ [⟨0, 90000⟩] := by
  constructor
  · rfl
  · decide

/-- With `end` before `start`, the negative minute count wraps through
`as u64` to `u64::MAX`-scale values whose `as i64` reinterpretation is
negative: at `num_bins = 1`, `end = start - 90000` the single bin runs one
minute backwards, as the source does. -/
example : get_bounds 1 0 (-90000) = [⟨0, -60000⟩] := by decide

/-- C3 witness: the amended theorem applied at `num_bins = 2`, `[0, 600000)`. -/
theorem c3_get_bounds_witness :
    1 ≤ 2 ∧ (0 : Int) ≤ 600000 ∧ (600000 : Int) - 0 < 2 ^ 63 ∧
    get_bounds 2 0 600000 = specBounds 2 5 0 0 :=
  ⟨by decide, by decide, by decide,
    (c3_get_bounds_binning 2 0 600000 (by decide) (by decide) (by decide)).1⟩

/-! ## Claim C4: per-bin counts come from manifest statistics only -/

/-- C4: every record produced by `get_bin_density` belongs to a bin of
`get_bounds`, and its count is the sum of `num_rows` over exactly the
manifest files having a column named by the stream's time partition (or the
default timestamp key when none is configured) with an Int64 `min` statistic
inside the closed bin; files lacking such a column or statistic contribute
nothing, and the count is a function of the downloaded manifests alone — no
data file is consulted. -/
theorem c4_bin_density_pruning (tp : Option String) (manifests : List Manifest)
    (num_bins : Nat) (s e : Int) (r : CountsRecord)
    (hr : r ∈ get_bin_density tp manifests num_bins s e) :
    ∃ bin ∈ get_bounds num_bins s e,
      r.start_time = bin.start ∧ r.end_time = bin.stop ∧
      r.count = (((manifests.flatMap Manifest.files).filter fun f =>
          decide (specFileInBin (resolve_time_partition tp) bin f)).map
            File.num_rows).sum := by
  unfold get_bin_density at hr
  obtain ⟨bin, hbin, rfl⟩ := List.mem_map.mp hr
  refine ⟨bin, hbin, rfl, rfl, ?_⟩
  show bin_count (resolve_time_partition tp) manifests bin = _
  unfold bin_count
  rw [filterMap_ite_sum]
  simp only [file_matches_bin_eq_decide]
  rw [map_ite_sum_eq_filter_sum]

/-- Concrete manifest used to witness C4: one file of 7 rows whose
`p_timestamp` column has Int64 statistics with `min = 30000` ms. -/
def c4SampleManifest : Manifest :=
  ⟨[⟨"a.parquet", 7, 70, 700, [⟨"p_timestamp", some (.int 30000 40000)⟩]⟩]⟩

/-- C4 witness: the theorem applied to a one-bin request over the sample
manifest. -/
theorem c4_bin_density_witness :
    (⟨0, 120000, 7⟩ : CountsRecord) ∈
        get_bin_density none [c4SampleManifest] 1 0 120000 ∧
    ∃ bin ∈ get_bounds 1 0 120000,
      (⟨0, 120000, 7⟩ : CountsRecord).start_time = bin.start ∧
      (⟨0, 120000, 7⟩ : CountsRecord).end_time = bin.stop ∧
      (⟨0, 120000, 7⟩ : CountsRecord).count
        = ((([c4SampleManifest].flatMap Manifest.files).filter fun f =>
            decide (specFileInBin (resolve_time_partition none) bin f)).map
              File.num_rows).sum :=
  ⟨by decide,
    c4_bin_density_pruning none [c4SampleManifest] 1 0 120000 ⟨0, 120000, 7⟩ (by decide)⟩

/-! ## Consecutive-bin machinery used for the C2 totals -/

/-- A chain of consecutive bins: one bin per width, each starting where the
previous one stopped. -/
def chainW : List Int → Int → List TimeBounds
  | [], _ => []
  | w :: ws, s => ⟨s, s + w⟩ :: chainW ws (s + w)

theorem chainW_start_le (ws : List Int) (s : Int) (hw : ∀ w ∈ ws, 0 ≤ w) :
    ∀ b ∈ chainW ws s, s ≤ b.start := by
  induction ws generalizing s with
  | nil => simp [chainW]
  | cons w ws ih =>
    intro b hb
    simp only [chainW, List.mem_cons] at hb
    rcases hb with rfl | hb
    · exact le_refl _
    · have h1 := ih (s + w) (fun w' hw' => hw w' (List.mem_cons_of_mem _ hw')) b hb
      have h2 : 0 ≤ w := hw w (List.mem_cons_self _ _)
      omega

/-- A point not sitting on any interior bin boundary lies in exactly one bin
of a chain of positive-width consecutive bins covering `[s, s + sum]` — with
bins taken as closed intervals, as the counts filter does. -/
theorem chainW_countP (t : Int) : ∀ (ws : List Int) (s : Int), ws ≠ [] →
    (∀ w ∈ ws, 0 < w) →
    (∀ b ∈ chainW ws s, b.start = s ∨ t ≠ b.start) →
    (chainW ws s).countP (fun b => decide (b.start ≤ t ∧ t ≤ b.stop))
      = if s ≤ t ∧ t ≤ s + ws.sum then 1 else 0
  | [], s, hne, _, _ => absurd rfl hne
  | [w], s, _, hw, _ => by
    simp only [chainW, List.countP_cons, List.countP_nil, List.sum_cons, List.sum_nil,
      decide_eq_true_eq]
    split_ifs <;> omega
  | w :: w' :: ws', s, _, hw, hnb => by
    have hwpos : 0 < w := hw w (List.mem_cons_self _ _)
    have hw' : ∀ x ∈ w' :: ws', 0 < x := fun x hx => hw x (List.mem_cons_of_mem _ hx)
    have hheadmem : (⟨s + w, s + w + w'⟩ : TimeBounds) ∈ chainW (w :: w' :: ws') s := by
      simp [chainW]
    have hw'pos : 0 < w' := hw' w' (List.mem_cons_self _ _)
    have ht : t ≠ s + w := by
      rcases hnb _ hheadmem with h | h
      · have h2 : s + w = s := h
        omega
      · exact h
    have hnb' : ∀ b ∈ chainW (w' :: ws') (s + w), b.start = s + w ∨ t ≠ b.start := by
      intro b hb
      have hging : s + w ≤ b.start :=
        chainW_start_le (w' :: ws') (s + w) (fun x hx => le_of_lt (hw' x hx)) b hb
      rcases hnb b (List.mem_cons_of_mem _ hb) with h | h
      · omega
      · exact Or.inr h
    have ih := chainW_countP t (w' :: ws') (s + w) (by simp) hw' hnb'
    have hsum : 0 ≤ (w' :: ws').sum :=
      List.sum_nonneg fun x hx => le_of_lt (hw' x hx)
    simp only [chainW] at ih ⊢
    rw [List.countP_cons, ih]
    simp only [List.sum_cons, decide_eq_true_eq] at hsum ⊢
    split_ifs <;> omega

/-- The widths of the bins produced by `get_bounds`. -/
def boundsWidths (num_bins : Nat) (s e : Int) : List Int :=
  let total := total_minutes s e
  let q := total / num_bins
  let r := total % num_bins
  if 0 < r then
    List.replicate num_bins (60000 * i64_cast q) ++ [60000 * i64_cast r]
  else
    List.replicate (num_bins - 1) (60000 * i64_cast q) ++ [60000 * i64_cast q]

theorem chainW_append (ws1 ws2 : List Int) (s : Int) :
    chainW (ws1 ++ ws2) s = chainW ws1 s ++ chainW ws2 (s + ws1.sum) := by
  induction ws1 generalizing s with
  | nil => simp [chainW]
  | cons w ws ih => simp [chainW, ih, add_assoc]

theorem boundsLoop_fst_chainW (q : Nat) : ∀ (n : Nat) (s : Int),
    (boundsLoop q n s).1 = chainW (List.replicate n (60000 * i64_cast q)) s
  | 0, s => rfl
  | n + 1, s => by
    simp [boundsLoop, chainW, List.replicate_succ, boundsLoop_fst_chainW q n]

theorem boundsLoop_snd_sum (q : Nat) : ∀ (n : Nat) (s : Int),
    (boundsLoop q n s).2 = s + (List.replicate n (60000 * i64_cast q)).sum
  | 0, s => by simp [boundsLoop]
  | n + 1, s => by
    simp [boundsLoop, List.replicate_succ, boundsLoop_snd_sum q n]
    ring

theorem get_bounds_eq_chainW (num_bins : Nat) (s e : Int) :
    get_bounds num_bins s e = chainW (boundsWidths num_bins s e) s := by
  simp only [get_bounds, boundsWidths]
  by_cases h0 : 0 < total_minutes s e % num_bins
  · simp only [if_pos h0, chainW_append, boundsLoop_fst_chainW, boundsLoop_snd_sum]
    simp [chainW]
  · simp only [if_neg h0, chainW_append, boundsLoop_fst_chainW, boundsLoop_snd_sum]
    simp [chainW]

theorem boundsWidths_ne_nil (num_bins : Nat) (s e : Int) :
    boundsWidths num_bins s e ≠ [] := by
  unfold boundsWidths
  by_cases h0 : 0 < total_minutes s e % num_bins <;> simp [h0]

theorem boundsWidths_pos (num_bins : Nat) (s e : Int) (h1 : 1 ≤ num_bins)
    (h2 : num_bins ≤ total_minutes s e) (htot : total_minutes s e < 2 ^ 63) :
    ∀ w ∈ boundsWidths num_bins s e, 0 < w := by
  have hq : 1 ≤ total_minutes s e / num_bins :=
    (Nat.one_le_div_iff (by omega)).mpr h2
  have hcq : i64_cast (total_minutes s e / num_bins)
      = ((total_minutes s e / num_bins : Nat) : Int) :=
    i64_cast_eq _ (by have := Nat.div_le_self (total_minutes s e) num_bins; omega)
  have hcr : i64_cast (total_minutes s e % num_bins)
      = ((total_minutes s e % num_bins : Nat) : Int) :=
    i64_cast_eq _ (by have := Nat.mod_le (total_minutes s e) num_bins; omega)
  have hq' : (1 : Int) ≤ ((total_minutes s e / num_bins : Nat) : Int) := by
    exact_mod_cast hq
  intro w hw
  unfold boundsWidths at hw
  by_cases h0 : 0 < total_minutes s e % num_bins
  · rw [if_pos h0] at hw
    simp only [List.mem_append, List.mem_replicate, List.mem_singleton] at hw
    rcases hw with ⟨_, rfl⟩ | rfl
    · rw [hcq]; omega
    · have hc : (0 : Int) < ((total_minutes s e % num_bins : Nat) : Int) := by
        exact_mod_cast h0
      rw [hcr]; omega
  · rw [if_neg h0] at hw
    simp only [List.mem_append, List.mem_replicate, List.mem_singleton] at hw
    rcases hw with ⟨_, rfl⟩ | rfl
    · rw [hcq]; omega
    · rw [hcq]; omega

theorem boundsWidths_sum (num_bins : Nat) (s e : Int) (h1 : 1 ≤ num_bins)
    (htot : total_minutes s e < 2 ^ 63) :
    (boundsWidths num_bins s e).sum = 60000 * (total_minutes s e : Int) := by
  have hdm : (num_bins : Int) * ((total_minutes s e / num_bins : Nat) : Int)
      + ((total_minutes s e % num_bins : Nat) : Int) = (total_minutes s e : Int) := by
    exact_mod_cast Nat.div_add_mod (total_minutes s e) num_bins
  have hcq : i64_cast (total_minutes s e / num_bins)
      = ((total_minutes s e / num_bins : Nat) : Int) :=
    i64_cast_eq _ (by have := Nat.div_le_self (total_minutes s e) num_bins; omega)
  have hcr : i64_cast (total_minutes s e % num_bins)
      = ((total_minutes s e % num_bins : Nat) : Int) :=
    i64_cast_eq _ (by have := Nat.mod_le (total_minutes s e) num_bins; omega)
  simp only [boundsWidths, hcq, hcr]
  by_cases h0 : 0 < total_minutes s e % num_bins
  · rw [if_pos h0]
    simp only [List.sum_append, List.sum_replicate, List.sum_cons, List.sum_nil,
      nsmul_eq_mul, add_zero]
    linear_combination 60000 * hdm
  · have h0' : ((total_minutes s e % num_bins : Nat) : Int) = 0 := by
      have : total_minutes s e % num_bins = 0 := by omega
      exact_mod_cast this
    rw [if_neg h0]
    simp only [List.sum_append, List.sum_replicate, List.sum_cons, List.sum_nil,
      nsmul_eq_mul, add_zero]
    have hcast : ((num_bins - 1 : Nat) : Int) = (num_bins : Int) - 1 := by
      omega
    rw [hcast]
    linear_combination 60000 * hdm - 60000 * h0'

theorem sum_map_add {α : Type} (l : List α) (f g : α → Nat) :
    (l.map fun x => f x + g x).sum = (l.map f).sum + (l.map g).sum := by
  induction l with
  | nil => rfl
  | cons x l ih => simp only [List.map_cons, List.sum_cons, ih]; omega

theorem sum_swap {β γ : Type} (bs : List β) (fs : List γ) (g : β → γ → Nat) :
    (bs.map fun b => (fs.map fun f => g b f).sum).sum
      = (fs.map fun f => (bs.map fun b => g b f).sum).sum := by
  induction bs with
  | nil => simp
  | cons b bs ih =>
    simp only [List.map_cons, List.sum_cons, ih, ← sum_map_add]

theorem sum_ite_countP {β : Type} (bs : List β) (P : β → Prop) [DecidablePred P]
    (w : Nat) :
    (bs.map fun b => if P b then w else 0).sum
      = w * bs.countP fun b => decide (P b) := by
  induction bs with
  | nil => simp
  | cons b bs ih =>
    by_cases h : P b
    · simp [List.countP_cons, h, ih]
      ring
    · simp [List.countP_cons, h, ih]

theorem map_ite_sum_eq_filter_decide_sum {α : Type} (P : α → Prop) [DecidablePred P]
    (w : α → Nat) (l : List α) :
    (l.map fun x => if P x then w x else 0).sum
      = ((l.filter fun x => decide (P x)).map w).sum := by
  induction l with
  | nil => rfl
  | cons x l ih => by_cases h : P x <;> simp [List.filter_cons, h, ih]

/-- The Int64 `min` of a column's statistics, when they are Int64. -/
def statsMin : Option TypedStatistics → Option Int
  | some (.int mn _) => some mn
  | _ => none

/-- C2 helper: for one file, summing its contribution over all bins collapses
— when its Int64 `min` avoids the interior bin boundaries — to a single
contribution governed by membership of `min` in `[s, e]`. -/
theorem per_file_count (tp : String) (num_bins : Nat) (s e : Int) (f : File)
    (h1 : 1 ≤ num_bins) (h2 : num_bins ≤ total_minutes s e)
    (h3 : e - s = 60000 * (total_minutes s e : Int))
    (h4 : total_minutes s e < 2 ^ 63)
    (huniq : ∀ c1 ∈ f.columns, ∀ c2 ∈ f.columns,
      c1.name = tp → c2.name = tp → c1 = c2)
    (hbound : ∀ c ∈ f.columns, c.name = tp → ∀ mn ∈ statsMin c.stats,
      ∀ b ∈ get_bounds num_bins s e, b.start = s ∨ mn ≠ b.start) :
    ((get_bounds num_bins s e).map fun b =>
        if file_matches_bin tp b f then f.num_rows else 0).sum
      = if specFileInBin tp ⟨s, e⟩ f then f.num_rows else 0 := by
  by_cases hcol : ∃ c ∈ f.columns, c.name = tp ∧ ∃ mn mx, c.stats = some (.int mn mx)
  · obtain ⟨c0, hc0, hname, mn, mx, hstats⟩ := hcol
    have hmatch : ∀ b : TimeBounds,
        file_matches_bin tp b f = decide (b.start ≤ mn ∧ mn ≤ b.stop) := by
      intro b
      by_cases hmem : b.start ≤ mn ∧ mn ≤ b.stop
      · rw [decide_eq_true hmem]
        exact (file_matches_bin_iff tp b f).mpr
          ⟨c0, hc0, hname, mn, mx, hstats, hmem.1, hmem.2⟩
      · rw [decide_eq_false hmem, ← Bool.not_eq_true, file_matches_bin_iff]
        rintro ⟨c, hc, hcn, mn', mx', hst', hlo, hhi⟩
        have hcc : c = c0 := huniq c hc c0 hc0 hcn hname
        subst hcc
        rw [hstats] at hst'
        simp only [Option.some.injEq, TypedStatistics.int.injEq] at hst'
        obtain ⟨rfl, rfl⟩ := hst'
        exact hmem ⟨hlo, hhi⟩
    have hspec : specFileInBin tp ⟨s, e⟩ f ↔ s ≤ mn ∧ mn ≤ e := by
      rw [← file_matches_bin_iff, hmatch ⟨s, e⟩]
      simp
    have hboundmn : ∀ b ∈ get_bounds num_bins s e, b.start = s ∨ mn ≠ b.start :=
      hbound c0 hc0 hname mn (by rw [Option.mem_def, hstats]; rfl)
    simp only [hmatch, decide_eq_true_eq]
    rw [sum_ite_countP (get_bounds num_bins s e)
      (fun b => b.start ≤ mn ∧ mn ≤ b.stop) f.num_rows]
    rw [get_bounds_eq_chainW] at hboundmn ⊢
    rw [chainW_countP mn (boundsWidths num_bins s e) s
      (boundsWidths_ne_nil num_bins s e)
      (boundsWidths_pos num_bins s e h1 h2 h4) hboundmn]
    rw [boundsWidths_sum num_bins s e h1 h4]
    have he : s + 60000 * (total_minutes s e : Int) = e := by omega
    rw [he]
    by_cases hin : s ≤ mn ∧ mn ≤ e
    · rw [if_pos hin, if_pos (hspec.mpr hin), mul_one]
    · rw [if_neg hin, if_neg (fun hs => hin (hspec.mp hs)), mul_zero]
  · have hfm : ∀ b, file_matches_bin tp b f = false := by
      intro b
      rw [← Bool.not_eq_true, file_matches_bin_iff]
      rintro ⟨c, hc, hcn, mn, mx, hst, _, _⟩
      exact hcol ⟨c, hc, hcn, mn, mx, hst⟩
    have hspec : ¬ specFileInBin tp ⟨s, e⟩ f := by
      rintro ⟨c, hc, hcn, mn, mx, hst, _, _⟩
      exact hcol ⟨c, hc, hcn, mn, mx, hst⟩
    simp [hfm, hspec]

/-! ## Claim C2: the total of the bin counts -/

/-- C2 (amended): provided the range spans a whole number of minutes, at
least `num_bins` minutes and fewer than `2^63` whole minutes (so the bin
widths are i64-representable, as for every chrono range), stats columns
named by the time partition are unique per file, and no matching file's
Int64 `min` falls exactly on a shared boundary between consecutive bins, the
sum of `count` over all records of `get_bin_density` equals the sum of
`num_rows` over exactly those manifest files whose partition-time column's
Int64 `min` lies inside `[start_time, end_time]`, each such file counted
once.  (Without the boundary proviso a file is counted once per closed bin
containing its `min`, so files on a shared boundary are counted twice.) -/
theorem c2_counts_total (tp : Option String) (manifests : List Manifest)
    (num_bins : Nat) (s e : Int)
    (h1 : 1 ≤ num_bins)
    (h2 : num_bins ≤ total_minutes s e)
    (h3 : e - s = 60000 * (total_minutes s e : Int))
    (h4 : total_minutes s e < 2 ^ 63)
    (huniq : ∀ m ∈ manifests, ∀ f ∈ m.files, ∀ c1 ∈ f.columns, ∀ c2 ∈ f.columns,
      c1.name = resolve_time_partition tp → c2.name = resolve_time_partition tp →
      c1 = c2)
    (hbound : ∀ m ∈ manifests, ∀ f ∈ m.files, ∀ c ∈ f.columns,
      c.name = resolve_time_partition tp → ∀ mn ∈ statsMin c.stats,
      ∀ b ∈ get_bounds num_bins s e, b.start = s ∨ mn ≠ b.start) :
    ((get_bin_density tp manifests num_bins s e).map CountsRecord.count).sum
      = (((manifests.flatMap Manifest.files).filter fun f =>
          decide (specFileInBin (resolve_time_partition tp) ⟨s, e⟩ f)).map
            File.num_rows).sum := by
  have step1 : ((get_bin_density tp manifests num_bins s e).map CountsRecord.count).sum
      = ((get_bounds num_bins s e).map fun b =>
          ((manifests.flatMap Manifest.files).map fun f =>
            if file_matches_bin (resolve_time_partition tp) b f
            then f.num_rows else 0).sum).sum := by
    unfold get_bin_density
    rw [List.map_map]
    refine congrArg List.sum (List.map_congr_left fun b _ => ?_)
    show bin_count (resolve_time_partition tp) manifests b = _
    unfold bin_count
    exact filterMap_ite_sum _ _ _
  rw [step1, sum_swap]
  rw [← map_ite_sum_eq_filter_decide_sum
    (specFileInBin (resolve_time_partition tp) ⟨s, e⟩) File.num_rows]
  refine congrArg List.sum (List.map_congr_left fun f hf => ?_)
  obtain ⟨m, hm, hfm⟩ := List.mem_flatMap.mp hf
  exact per_file_count (resolve_time_partition tp) num_bins s e f h1 h2 h3 h4
    (huniq m hm f hfm) (hbound m hm f hfm)

/-- One file of 7 rows whose `p_timestamp` Int64 `min` (300000 ms) sits
exactly on the shared boundary of the bins `[0, 300000]` and
`[300000, 600000]` of a two-bin request over `[0, 600000)`. -/
def c2BoundaryManifest : Manifest :=
  ⟨[⟨"b.parquet", 7, 70, 700, [⟨"p_timestamp", some (.int 300000 300000)⟩]⟩]⟩

/-- C2 counterexample: with two 5-minute bins over `[0, 600000)` and a single
7-row file whose partition `min` is the shared bin boundary 300000 ms, the
records sum to 14 while the file's rows sum to 7 — the file is counted once
per closed bin containing its `min`, not "exactly once" as claimed. -/
theorem c2_counts_counterexample :
    ((get_bin_density none [c2BoundaryManifest] 2 0 600000).map
        CountsRecord.count).sum = 14 ∧
    ((([c2BoundaryManifest].flatMap Manifest.files).filter fun f =>
        decide (specFileInBin (resolve_time_partition none) ⟨0, 600000⟩ f)).map
          File.num_rows).sum = 7 ∧
    (14 : Nat) ≠ 7 := by
  refine ⟨by decide, by decide, by decide⟩

/-- One file of 7 rows whose `p_timestamp` Int64 `min` (100000 ms) sits
strictly inside the first bin of a two-bin request over `[0, 600000)`. -/
def c2InteriorManifest : Manifest :=
  ⟨[⟨"c.parquet", 7, 70, 700, [⟨"p_timestamp", some (.int 100000 100000)⟩]⟩]⟩

/-- C2 witness: the amended theorem applied to a two-bin request over
`[0, 600000)` and a file whose partition `min` avoids the bin boundaries. -/
theorem c2_counts_witness :
    ((get_bin_density none [c2InteriorManifest] 2 0 600000).map
        CountsRecord.count).sum
      = ((([c2InteriorManifest].flatMap Manifest.files).filter fun f =>
          decide (specFileInBin (resolve_time_partition none) ⟨0, 600000⟩ f)).map
            File.num_rows).sum :=
  c2_counts_total none [c2InteriorManifest] 2 0 600000 (by decide) (by decide)
    (by decide) (by decide) (by decide) (by decide)

/-! ## Logical plans, the time-filter transform and the table-scan visitor
(`src/query/mod.rs`) -/

/-- Shallow model of DataFusion expressions, carrying exactly the structure
the embedded operations inspect: columns (with an optional table-relation
qualifier), literal instants and binary expressions with an operator tag. -/
inductive Expr where
  | column (relation : Option String) (name : String)
  | literal (v : Int)
  | binaryExpr (left : Expr) (op : String) (right : Expr)
deriving DecidableEq

/-- Shallow model of DataFusion logical plans.  `tableScan` carries the table
name and the scan's filter expressions; `explain` wraps a plan; every other
node shape is abstracted by its children (`nodeLeaf` / `node1` / `node2`),
which is all the embedded plan walkers distinguish: they match `TableScan`
and `Explain` and treat every other node uniformly. -/
inductive LogicalPlan where
  | tableScan (table_name : String) (filters : List Expr)
  | filter (predicate : Expr) (input : LogicalPlan)
  | explain (input : LogicalPlan)
  | nodeLeaf
  | node1 (input : LogicalPlan)
  | node2 (left right : LogicalPlan)
deriving DecidableEq

/-- `table_contains_any_time_filters`: some scan filter is a binary
expression whose left side is a column named by the time partition (or the
default timestamp key when no time partition is configured). -/
def table_contains_any_time_filters (filters : List Expr)
    (time_partition : Option String) : Bool :=
  filters.any fun x =>
    match x with
    | .binaryExpr left _ _ =>
      match left with
      | .column _ name =>
        match time_partition with
        | some tp => name == tp
        | none => name == DEFAULT_TIMESTAMP_KEY
      | _ => false
    | _ => false

/-- Modelled from the spec: the pair of predicates
`col ≥ t_lo` / `col < t_hi` built through `PartialTimeFilter::binary_expr`
(whose implementation lives in `stream_schema_provider`, outside the given
sources; §4.8 words them as `col ≥ t_lo AND col < t_hi`). -/
def mkTimeFilters (start_time end_time : Int) (tp_name : String)
    (table_name : String) : Expr × Expr :=
  (.binaryExpr (.column (some table_name) tp_name) ">=" (.literal start_time),
    .binaryExpr (.column (some table_name) tp_name) "<" (.literal end_time))

/-- The closure passed to `plan.transform(..)` in `transform`
(`src/query/mod.rs:521-571`).  On a `TableScan` it starts from an empty
`new_filters`, builds `_start_time_filter` / `_end_time_filter` when the scan
has no time filter — but the two `new_filters.push(..)` calls are commented
out in the source, so `new_filters` stays empty, `reduce(and)` yields `None`,
and the scan is returned unchanged (`Transformed::no`).  Non-scan nodes are
returned unchanged. -/
def transformClosure (start_time end_time : Int) (time_partition : Option String)
    (p : LogicalPlan) : LogicalPlan :=
  match p with
  | .tableScan table_name filters =>
    let new_filters : List Expr := []
    let _staged :=
      if ¬ table_contains_any_time_filters filters time_partition then
        some (mkTimeFilters start_time end_time
          (time_partition.getD DEFAULT_TIMESTAMP_KEY) table_name)
      else none
    match new_filters.foldl (fun acc f =>
        match acc with
        | none => some f
        | some g => some (.binaryExpr g "AND" f)) none with
    | some new_filter => .filter new_filter (.tableScan table_name filters)
    | none => .tableScan table_name filters
  | x => x

/-- `plan.transform(..)`: bottom-up rewrite applying the closure to every
node, children first. -/
def transform (start_time end_time : Int) (time_partition : Option String) :
    LogicalPlan → LogicalPlan
  | .tableScan n fs => transformClosure start_time end_time time_partition
      (.tableScan n fs)
  | .filter p i => transformClosure start_time end_time time_partition
      (.filter p (transform start_time end_time time_partition i))
  | .explain i => transformClosure start_time end_time time_partition
      (.explain (transform start_time end_time time_partition i))
  | .nodeLeaf => transformClosure start_time end_time time_partition .nodeLeaf
  | .node1 i => transformClosure start_time end_time time_partition
      (.node1 (transform start_time end_time time_partition i))
  | .node2 l r => transformClosure start_time end_time time_partition
      (.node2 (transform start_time end_time time_partition l)
        (transform start_time end_time time_partition r))

/-- `Query::final_logical_plan`: an `Explain` plan has its inner plan
transformed and is re-wrapped (the source also re-stringifies it); any other
plan is transformed directly. -/
def final_logical_plan (raw : LogicalPlan) (start_time end_time : Int)
    (time_partition : Option String) : LogicalPlan :=
  match raw with
  | .explain inner =>
    .explain (transform start_time end_time time_partition inner)
  | x => transform start_time end_time time_partition x

/-! ## Claim C1: the staged time filters are never attached -/

/-- C1: the plan transform is the identity — for every plan, time range and
time partition, `transform` (and hence `final_logical_plan`) returns the plan
unchanged.  The source stages `_start_time_filter` / `_end_time_filter` for
scans lacking a time filter, but the pushes into `new_filters` are commented
out, so no scan is ever wrapped in the claimed
`col ≥ t_lo AND col < t_hi` filter. -/
theorem c1_transform_is_identity (start_time end_time : Int)
    (time_partition : Option String) (p : LogicalPlan) :
    transform start_time end_time time_partition p = p ∧
    final_logical_plan p start_time end_time time_partition = p := by
  have hid : ∀ q : LogicalPlan,
      transform start_time end_time time_partition q = q := by
    intro q
    induction q with
    | tableScan n fs => rfl
    | filter pr i ih => simp [transform, transformClosure, ih]
    | explain i ih => simp [transform, transformClosure, ih]
    | nodeLeaf => rfl
    | node1 i ih => simp [transform, transformClosure, ih]
    | node2 l r ihl ihr => simp [transform, transformClosure, ihl, ihr]
  refine ⟨hid p, ?_⟩
  cases p <;> simp [final_logical_plan, hid]

/-! ## Claim C9: which table name the visitor yields -/

/-- `TableScanVisitor` driven by `raw_logical_plan.visit(..)`: `f_down`
pushes each table scan's name onto the visitor's `tables` vector in
depth-first pre-order (returning `Jump` on scans, `Continue` elsewhere, so
every scan of the tree is collected in order). -/
def visitTables : LogicalPlan → List String → List String
  | .tableScan n _, acc => acc ++ [n]
  | .filter _ i, acc => visitTables i acc
  | .explain i, acc => visitTables i acc
  | .nodeLeaf, acc => acc
  | .node1 i, acc => visitTables i acc
  | .node2 l r, acc => visitTables r (visitTables l acc)

/-- `Query::first_table_name`: run the visitor on the raw plan and `pop()`
the collected vector — `Vec::pop` removes and returns the *last* element. -/
def first_table_name (p : LogicalPlan) : Option String :=
  (visitTables p []).getLast?

/-- The table names referenced by a plan in depth-first order, as the
specification describes the visitor's output. -/
def tableNames : LogicalPlan → List String
  | .tableScan n _ => [n]
  | .filter _ i => tableNames i
  | .explain i => tableNames i
  | .nodeLeaf => []
  | .node1 i => tableNames i
  | .node2 l r => tableNames l ++ tableNames r

theorem visitTables_eq (p : LogicalPlan) :
    ∀ acc : List String, visitTables p acc = acc ++ tableNames p := by
  induction p with
  | tableScan n fs => intro acc; rfl
  | filter pr i ih => intro acc; simp [visitTables, tableNames, ih]
  | explain i ih => intro acc; simp [visitTables, tableNames, ih]
  | nodeLeaf => intro acc; simp [visitTables, tableNames]
  | node1 i ih => intro acc; simp [visitTables, tableNames, ih]
  | node2 l r ihl ihr =>
    intro acc
    simp [visitTables, tableNames, ihl, ihr]

/-- C9 (amended): `first_table_name` returns `Some` of the name of the *last*
table scan in the depth-first traversal of the plan (the visitor collects all
scan names in depth-first order and `pop()` takes the vector's last element),
and `None` when the plan contains no table scan. -/
theorem c9_first_table_name_is_last (p : LogicalPlan) :
    first_table_name p = (tableNames p).getLast? ∧
    (tableNames p = [] → first_table_name p = none) := by
  have h : first_table_name p = (tableNames p).getLast? := by
    unfold first_table_name
    rw [visitTables_eq p []]
    rfl
  exact ⟨h, fun hnil => by rw [h, hnil]; rfl⟩

/-- C9 witness: the amended theorem applied to a scanless plan and to a
single-scan plan. -/
theorem c9_first_table_name_witness :
    first_table_name .nodeLeaf = none ∧
    first_table_name (.tableScan "a" []) = (tableNames (.tableScan "a" [])).getLast? :=
  ⟨(c9_first_table_name_is_last .nodeLeaf).2 rfl,
    (c9_first_table_name_is_last (.tableScan "a" [])).1⟩

/-- C9 counterexample: a plan joining scans of `"a"` then `"b"` (depth-first
order `["a", "b"]`) yields `some "b"`, the *last* scan, not the first scan
`some "a"` as claimed. -/
theorem c9_first_table_name_counterexample :
    tableNames (.node2 (.tableScan "a" []) (.tableScan "b" [])) = ["a", "b"] ∧
    first_table_name (.node2 (.tableScan "a" []) (.tableScan "b" [])) = some "b" ∧
    first_table_name (.node2 (.tableScan "a" []) (.tableScan "b" [])) ≠ some "a" := by
  refine ⟨rfl, rfl, by decide⟩

/-! ## Ingestion errors and HTTP mapping
(`server/src/handlers/http/ingest.rs`) -/

/-- Modelled from the spec: `CreateStreamError` (declared in the `logstream`
module, outside the given sources).  The ingest source only distinguishes the
`StreamNameValidation` cause from every other cause, so the model carries the
former and folds the rest into `other`; each variant keeps its display
message. -/
inductive CreateStreamError where
  | streamNameValidation (msg : String)
  | other (msg : String)
deriving DecidableEq

/-- `PostError` from `ingest.rs`, each variant holding the display string of
its source payload. -/
inductive PostError where
  | streamNotFound (stream : String)
  | serdeError (msg : String)
  | header (msg : String)
  | event (msg : String)
  | invalid (msg : String)
  | createStream (err : CreateStreamError)
  | customError (msg : String)
  | networkError (msg : String)
  | objectStorageError (msg : String)
deriving DecidableEq

/-- `impl ResponseError for PostError`, `status_code`. -/
def PostError.status_code : PostError → Nat
  | .serdeError _ => 400
  | .header _ => 400
  | .event _ => 500
  | .invalid _ => 400
  | .createStream (.streamNameValidation _) => 400
  | .createStream _ => 500
  | .streamNotFound _ => 404
  | .customError _ => 500
  | .networkError _ => 500
  | .objectStorageError _ => 500

/-- The `Display` of `CreateStreamError`: the ingest source forwards the
cause's own message (`#[error("{0}")]`). -/
def CreateStreamError.message : CreateStreamError → String
  | .streamNameValidation msg => msg
  | .other msg => msg

/-- The `thiserror`-derived `Display` of `PostError`. -/
def PostError.message : PostError → String
  | .streamNotFound stream => "Stream " ++ stream ++ " not found"
  | .serdeError msg => "Could not deserialize into JSON object, " ++ msg
  | .header msg => "Header Error: " ++ msg
  | .event msg => "Event Error: " ++ msg
  | .invalid msg => "Invalid Request: " ++ msg
  | .createStream err => err.message
  | .customError msg => "Error: " ++ msg
  | .networkError msg => "Error: " ++ msg
  | .objectStorageError msg => "ObjectStorageError: " ++ msg

/-- The response built by `error_response`: status from `status_code`, the
plaintext content type, and the error's display string as the body. -/
structure HttpErrorResponse where
  status : Nat
  content_type : String
  body : String
deriving DecidableEq

/-- `impl ResponseError for PostError`, `error_response`. -/
def PostError.error_response (e : PostError) : HttpErrorResponse :=
  { status := e.status_code
    content_type := "text/plain"
    body := e.message }

/-- The specification's error table (§6), organised by its rows: 400 for
header, deserialization, invalid-payload and stream-name-validation errors;
404 for a missing stream; 500 for event-processing, storage and network
errors and any other stream-creation failure. -/
def specStatusTable : PostError → Nat
  | .header _ => 400
  | .serdeError _ => 400
  | .invalid _ => 400
  | .createStream (.streamNameValidation _) => 400
  | .streamNotFound _ => 404
  | .event _ => 500
  | .networkError _ => 500
  | .objectStorageError _ => 500
  | .customError _ => 500
  | .createStream (.other _) => 500

/-! ## Claim C6: HTTP status codes and plain-text bodies -/

/-- C6: every `PostError` variant's status code agrees with the
specification's error table, and the error response carries that status with
the error's plain-text message as its body. -/
theorem c6_post_error_status (e : PostError) :
    e.status_code = specStatusTable e ∧
    e.error_response.status = specStatusTable e ∧
    e.error_response.content_type = "text/plain" ∧
    e.error_response.body = e.message := by
  rcases e with s | m | m | m | m | err | m | m | m
  case createStream => rcases err with m | m <;> exact ⟨rfl, rfl, rfl, rfl⟩
  all_goals exact ⟨rfl, rfl, rfl, rfl⟩

/-! ## Claim C5: `create_stream_if_not_exists` -/

/-- The process-wide deployment mode (`Mode` in `option.rs`). -/
inductive Mode where
  | all
  | query
  | ingest
deriving DecidableEq

/-- What `create_stream_if_not_exists` did to the registry. -/
inductive StreamEffect where
  | untouched
  | createdEmpty
  | hydratedFromStorage
deriving DecidableEq

/-- `create_stream_if_not_exists` from `ingest.rs`, with its collaborators
made explicit: `registry_has` is `STREAM_INFO.stream_exists`, `mode` the
configured mode, `store_streams` the result of `store.list_streams()`,
`create_result` the outcome of `logstream::create_stream` (an empty-schema
creation) and `upsert_ok` the outcome of `upsert_stream_info`. -/
def create_stream_if_not_exists (registry_has : Bool) (mode : Mode)
    (store_streams : List String) (stream_name : String)
    (create_result : Except CreateStreamError Unit) (upsert_ok : Bool) :
    Except PostError StreamEffect :=
  if registry_has then .ok .untouched
  else
    match mode with
    | .all | .query =>
      match create_result with
      | .ok _ => .ok .createdEmpty
      | .error e => .error (.createStream e)
    | .ingest =>
      if store_streams.contains stream_name then
        if upsert_ok then .ok .hydratedFromStorage
        else .error (.streamNotFound stream_name)
      else
        .error (.invalid ("Stream " ++ stream_name ++
          " not found. Has it been created?"))

/-- Whether an ingest outcome failed with the `StreamNotFound` error kind. -/
def isStreamNotFoundError : Except PostError StreamEffect → Bool
  | .error (.streamNotFound _) => true
  | _ => false

/-- C5 (amended): `create_stream_if_not_exists` returns `Ok` touching nothing
when the registry already has the stream; otherwise All/Query mode creates
the stream with an empty schema (propagating any creation error), and Ingest
mode consults the object store: a listed stream hydrates the registry from
storage, while an unlisted stream fails with the `Invalid` error kind — not
`StreamNotFound` — carrying a stream-not-found message.  (The final conjunct
additionally records the code's remaining branch: a listed stream whose
hydration fails maps to `StreamNotFound`.) -/
theorem c5_create_stream_if_not_exists (registry_has : Bool) (mode : Mode)
    (store_streams : List String) (stream_name : String)
    (create_result : Except CreateStreamError Unit) (upsert_ok : Bool) :
    (registry_has = true →
      create_stream_if_not_exists registry_has mode store_streams stream_name
        create_result upsert_ok = .ok .untouched) ∧
    (registry_has = false → (mode = .all ∨ mode = .query) →
      create_result = .ok () →
      create_stream_if_not_exists registry_has mode store_streams stream_name
        create_result upsert_ok = .ok .createdEmpty) ∧
    (registry_has = false → mode = .ingest →
      store_streams.contains stream_name = true → upsert_ok = true →
      create_stream_if_not_exists registry_has mode store_streams stream_name
        create_result upsert_ok = .ok .hydratedFromStorage) ∧
    (registry_has = false → mode = .ingest →
      store_streams.contains stream_name = false →
      create_stream_if_not_exists registry_has mode store_streams stream_name
          create_result upsert_ok
        = .error (.invalid ("Stream " ++ stream_name ++
            " not found. Has it been created?")) ∧
      isStreamNotFoundError
        (create_stream_if_not_exists registry_has mode store_streams stream_name
          create_result upsert_ok) = false) ∧
    (registry_has = false → mode = .ingest →
      store_streams.contains stream_name = true → upsert_ok = false →
      create_stream_if_not_exists registry_has mode store_streams stream_name
        create_result upsert_ok = .error (.streamNotFound stream_name)) := by
  refine ⟨fun h => ?_, fun h hm hc => ?_, fun h hm hs hu => ?_, fun h hm hs => ?_,
    fun h hm hs hu => ?_⟩
  · simp [create_stream_if_not_exists, h]
  · subst hc
    rcases hm with rfl | rfl <;> simp [create_stream_if_not_exists, h]
  · subst hm
    have hs' : stream_name ∈ store_streams := by simpa using hs
    simp [create_stream_if_not_exists, h, hs', hu]
  · subst hm
    have hs' : stream_name ∉ store_streams := by simpa using hs
    constructor
    · simp [create_stream_if_not_exists, h, hs']
    · simp [create_stream_if_not_exists, h, hs', isStreamNotFoundError]
  · subst hm
    have hs' : stream_name ∈ store_streams := by simpa using hs
    simp [create_stream_if_not_exists, h, hs', hu]

/-- C5 counterexample: in Ingest mode with a stream absent from both registry
and store, the call fails with the `Invalid` error kind carrying the
stream-not-found message — not with the `StreamNotFound` kind the claim
names. -/
theorem c5_create_stream_counterexample :
    create_stream_if_not_exists false .ingest [] "s1" (.ok ()) true
      = .error (.invalid "Stream s1 not found. Has it been created?") ∧
    isStreamNotFoundError
      (create_stream_if_not_exists false .ingest [] "s1" (.ok ()) true) = false := by
  refine ⟨rfl, rfl⟩

/-- C5 witness: the amended theorem applied across the three modes at
concrete inputs. -/
theorem c5_create_stream_witness :
    create_stream_if_not_exists true .ingest [] "s1" (.ok ()) true
        = .ok .untouched ∧
    create_stream_if_not_exists false .all [] "s1" (.ok ()) true
        = .ok .createdEmpty ∧
    create_stream_if_not_exists false .ingest ["s1"] "s1" (.ok ()) true
        = .ok .hydratedFromStorage ∧
    create_stream_if_not_exists false .ingest ["s2"] "s1" (.ok ()) true
      = .error (.invalid "Stream s1 not found. Has it been created?") ∧
    create_stream_if_not_exists false .ingest ["s1"] "s1" (.ok ()) false
      = .error (.streamNotFound "s1") :=
  ⟨(c5_create_stream_if_not_exists true .ingest [] "s1" (.ok ()) true).1 rfl,
    (c5_create_stream_if_not_exists false .all [] "s1" (.ok ()) true).2.1 rfl
      (Or.inl rfl) rfl,
    (c5_create_stream_if_not_exists false .ingest ["s1"] "s1" (.ok ()) true).2.2.1
      rfl rfl (by decide) rfl,
    ((c5_create_stream_if_not_exists false .ingest ["s2"] "s1" (.ok ()) true).2.2.2.1
      rfl rfl (by decide)).1,
    (c5_create_stream_if_not_exists false .ingest ["s1"] "s1" (.ok ()) false).2.2.2.2
      rfl rfl (by decide) rfl⟩

/-! ## Claim C7: `push_logs` and the time-partition field -/

/-- Shallow model of a `serde_json::Value` as `push_logs` inspects it: only
`as_str` matters, so non-string variants carry no payload (their payloads are
never consulted on this path). -/
inductive Json where
  | str (s : String)
  | num (n : Int)
  | boolean (b : Bool)
  | null
  | arr
  | obj
deriving DecidableEq

/-- `serde_json` map lookup `value.get(key)` on one (array-normalized) row. -/
def getKey (row : List (String × Json)) (k : String) : Option Json :=
  (row.find? fun p => p.1 == k).map fun p => p.2

/-- Outcome of the time-partitioned `push_logs` loop: the ordered
`parsed_timestamp`s of the processed events, a `PostError`, or a Rust panic
(the source calls `as_str().unwrap()` on the looked-up value, which panics
when the value is not a string). -/
inductive PushOutcome where
  | ok (timestamps : List Int)
  | err (e : PostError)
  | panicked
deriving DecidableEq

/-- The `for value in data` loop of `push_logs` when a time partition is
configured: look the field up in each row, require a string value parsing as
a datetime, and process the row with the parsed value as its
`parsed_timestamp`; a missing field or an unparseable string fails the whole
call with `Invalid`. -/
def push_rows (tp_name : String) (parse_dt : String → Option Int) :
    List (List (String × Json)) → List Int → PushOutcome
  | [], acc => .ok acc.reverse
  | row :: rest, acc =>
    match getKey row tp_name with
    | some v =>
      match v with
      | .str sv =>
        match parse_dt sv with
        | some t => push_rows tp_name parse_dt rest (t :: acc)
        | none =>
          .err (.invalid ("field " ++ sv ++ " is not in the correct datetime format"))
      | _ => .panicked
    | none =>
      .err (.invalid ("ingestion failed as field " ++ tp_name ++
        " is not part of the log"))

/-- `push_logs` from `ingest.rs`, after stream-format resolution: with no
time partition configured a single event is processed with
`parsed_timestamp = now` (`Utc::now()`); with one configured, the
array-normalized rows are processed through the loop.  `parse_dt` stands for
`str::parse::<DateTime<Utc>>`, chrono's RFC-3339 parser. -/
def push_logs (time_partition : Option String) (now : Int)
    (parse_dt : String → Option Int)
    (rows : List (List (String × Json))) : PushOutcome :=
  match time_partition with
  | none => .ok [now]
  | some tp_name => push_rows tp_name parse_dt rows []

/-- The specification's per-row reading: the row's value at the
time-partition field, when it is a string parsing as a datetime. -/
def specParseRow (tp_name : String) (parse_dt : String → Option Int)
    (row : List (String × Json)) : Option Int :=
  match getKey row tp_name with
  | some (.str sv) => parse_dt sv
  | _ => none

theorem push_rows_all_ok (tp_name : String) (parse_dt : String → Option Int) :
    ∀ (rows : List (List (String × Json))) (acc : List Int),
    (∀ r ∈ rows, (specParseRow tp_name parse_dt r).isSome) →
    push_rows tp_name parse_dt rows acc
      = .ok (acc.reverse ++ rows.filterMap (specParseRow tp_name parse_dt))
  | [], acc, _ => by simp [push_rows]
  | row :: rest, acc, hall => by
    have hrow := hall row (List.mem_cons_self _ _)
    unfold specParseRow at hrow
    cases hk : getKey row tp_name with
    | none => rw [hk] at hrow; simp at hrow
    | some v =>
      rw [hk] at hrow
      cases v with
      | str sv =>
        cases hp : parse_dt sv with
        | none => simp [hp] at hrow
        | some t =>
          have hspec : specParseRow tp_name parse_dt row = some t := by
            unfold specParseRow; rw [hk]; simp [hp]
          simp only [push_rows, hk, hp]
          rw [push_rows_all_ok tp_name parse_dt rest (t :: acc)
            (fun r hr => hall r (List.mem_cons_of_mem _ hr))]
          simp [List.filterMap_cons, hspec]
      | num n => simp at hrow
      | boolean b => simp at hrow
      | null => simp at hrow
      | arr => simp at hrow
      | obj => simp at hrow

theorem push_rows_prepend_good (tp_name : String) (parse_dt : String → Option Int) :
    ∀ (good : List (List (String × Json))) (acc : List Int),
    (∀ r ∈ good, (specParseRow tp_name parse_dt r).isSome) →
    ∀ rest : List (List (String × Json)),
    push_rows tp_name parse_dt (good ++ rest) acc
      = push_rows tp_name parse_dt rest
          ((good.filterMap (specParseRow tp_name parse_dt)).reverse ++ acc)
  | [], acc, _, rest => by simp
  | row :: good, acc, hall, rest => by
    have hrow := hall row (List.mem_cons_self _ _)
    unfold specParseRow at hrow
    rw [List.cons_append]
    cases hk : getKey row tp_name with
    | none => rw [hk] at hrow; simp at hrow
    | some v =>
      rw [hk] at hrow
      cases v with
      | str sv =>
        cases hp : parse_dt sv with
        | none => simp [hp] at hrow
        | some t =>
          have hspec : specParseRow tp_name parse_dt row = some t := by
            unfold specParseRow; rw [hk]; simp [hp]
          simp only [push_rows, hk, hp]
          rw [push_rows_prepend_good tp_name parse_dt good (t :: acc)
            (fun r hr => hall r (List.mem_cons_of_mem _ hr)) rest]
          simp [List.filterMap_cons, hspec]
      | num n => simp at hrow
      | boolean b => simp at hrow
      | null => simp at hrow
      | arr => simp at hrow
      | obj => simp at hrow

/-- C7: with no time partition configured, one event is processed with the
current time as its `parsed_timestamp`.  With a time partition configured:
when every row carries the field as a string parsing as a datetime, the call
succeeds and each row's parsed value becomes that row's `parsed_timestamp`
in order; the first row missing the field fails the whole call with
`Invalid` naming the field as not part of the log; and the first row whose
string value does not parse fails the whole call with `Invalid` saying the
value is not in the correct datetime format. -/
theorem c7_push_logs_time_partition (tp_name : String) (now : Int)
    (parse_dt : String → Option Int)
    (rows good rest : List (List (String × Json)))
    (bad : List (String × Json)) :
    (push_logs none now parse_dt rows = .ok [now]) ∧
    ((∀ r ∈ rows, (specParseRow tp_name parse_dt r).isSome) →
      push_logs (some tp_name) now parse_dt rows
        = .ok (rows.filterMap (specParseRow tp_name parse_dt))) ∧
    ((∀ r ∈ good, (specParseRow tp_name parse_dt r).isSome) →
      getKey bad tp_name = none →
      push_logs (some tp_name) now parse_dt (good ++ bad :: rest)
        = .err (.invalid ("ingestion failed as field " ++ tp_name ++
            " is not part of the log"))) ∧
    (∀ sv : String, (∀ r ∈ good, (specParseRow tp_name parse_dt r).isSome) →
      getKey bad tp_name = some (.str sv) → parse_dt sv = none →
      push_logs (some tp_name) now parse_dt (good ++ bad :: rest)
        = .err (.invalid ("field " ++ sv ++
            " is not in the correct datetime format"))) := by
  refine ⟨rfl, fun hall => ?_, fun hgood hmiss => ?_, fun sv hgood hstr hparse => ?_⟩
  · show push_rows tp_name parse_dt rows [] = _
    rw [push_rows_all_ok tp_name parse_dt rows [] hall]
    simp
  · show push_rows tp_name parse_dt (good ++ bad :: rest) [] = _
    rw [push_rows_prepend_good tp_name parse_dt good [] hgood (bad :: rest)]
    simp only [push_rows, hmiss]
  · show push_rows tp_name parse_dt (good ++ bad :: rest) [] = _
    rw [push_rows_prepend_good tp_name parse_dt good [] hgood (bad :: rest)]
    simp only [push_rows, hstr, hparse]

/-- C7 witness: the theorem applied to concrete rows and a concrete RFC-3339
parser stub — one all-good batch and one batch whose second row has a
malformed value. -/
theorem c7_push_logs_witness :
    push_logs (some "ts") 99 (fun s =>
        if s == "2024-01-01T00:00:00Z" then some 1704067200000 else none)
      [[("ts", .str "2024-01-01T00:00:00Z"), ("x", .num 1)]]
      = .ok [1704067200000] ∧
    push_logs (some "ts") 99 (fun s =>
        if s == "2024-01-01T00:00:00Z" then some 1704067200000 else none)
      [[("ts", .str "2024-01-01T00:00:00Z")], [("ts", .str "not-a-date")]]
      = .err (.invalid "field not-a-date is not in the correct datetime format") := by
  constructor
  · have h := (c7_push_logs_time_partition "ts" 99 (fun s =>
        if s == "2024-01-01T00:00:00Z" then some 1704067200000 else none)
      [[("ts", .str "2024-01-01T00:00:00Z"), ("x", .num 1)]] [] [] []).2.1
      (by decide)
    simpa using h
  · exact (c7_push_logs_time_partition "ts" 99 (fun s =>
        if s == "2024-01-01T00:00:00Z" then some 1704067200000 else none)
      [] [[("ts", .str "2024-01-01T00:00:00Z")]] []
      [("ts", .str "not-a-date")]).2.2.2 "not-a-date" (by decide) (by decide)
      (by decide)

/-! ## Claim C10: staging-volume disk usage (`server/src/metrics/mod.rs`) -/

/-- One `sysinfo` disk: its mount point as a component list (Rust
`Path::starts_with` compares component-wise) plus total and available space
in bytes. -/
structure DiskInfo where
  mount : List String
  total : Nat
  avail : Nat
deriving DecidableEq

/-- The sort key used by `get_volume_disk_usage`: the length of the mount
point rendered as a string (`mount_point().to_str().unwrap().len()`). -/
def mountKey (d : DiskInfo) : Nat := (String.intercalate "/" d.mount).length

/-- `get_volume_disk_usage`: sort the disks by mount-point length, reverse
(longest first — Rust's `sort_by_key` is stable, as is the insertion sort
used here), and return `(total_space, available_space, total - available)`
for the first disk whose mount point is a prefix of the path; all `None`
when no mount point matches. -/
def get_volume_disk_usage (disks : List DiskInfo) (path : List String) :
    Option Nat × Option Nat × Option Nat :=
  let sorted :=
    (List.insertionSort (fun a b => mountKey a ≤ mountKey b) disks).reverse
  match sorted.find? fun d => d.mount.isPrefixOf path with
  | some d => (some d.total, some d.avail, some (d.total - d.avail))
  | none => (none, none, none)

/-- The labeled disk gauges of the metrics registry. -/
structure DiskGauges where
  total_disk : Nat
  used_disk : Nat
  available_disk : Nat
deriving DecidableEq

/-- The disk block of the minute sampler in
`init_system_info_metrics_schedular`: when all three components are `Some`,
it binds them in order as `(staging_volume_total_disk,
staging_volume_used_disk, staging_volume_available_disk)` and sets the
`TOTAL_DISK`, `USED_DISK` and `AVAILABLE_DISK` gauges from them; otherwise
no disk gauge is set. -/
def sampler_disk_gauges (usage : Option Nat × Option Nat × Option Nat) :
    Option DiskGauges :=
  match usage with
  | (some staging_volume_total_disk, some staging_volume_used_disk,
      some staging_volume_available_disk) =>
    some { total_disk := staging_volume_total_disk
           used_disk := staging_volume_used_disk
           available_disk := staging_volume_available_disk }
  | _ => none

theorem find_desc_max {α : Type} (key : α → Nat) (p : α → Bool) :
    ∀ l : List α, List.Pairwise (fun a b => key b ≤ key a) l →
    ∀ x, l.find? p = some x →
      p x = true ∧ ∀ y ∈ l, p y = true → key y ≤ key x := by
  intro l
  induction l with
  | nil => intro _ x hx; cases hx
  | cons a l ih =>
    intro hpair x hx
    rcases List.pairwise_cons.mp hpair with ⟨hhead, htail⟩
    by_cases hpa : p a
    · rw [List.find?_cons_of_pos _ hpa] at hx
      cases hx
      refine ⟨hpa, fun y hy _ => ?_⟩
      rcases List.mem_cons.mp hy with rfl | hy
      · exact le_refl _
      · exact hhead y hy
    · rw [List.find?_cons_of_neg _ hpa] at hx
      obtain ⟨hpx, hmax⟩ := ih htail x hx
      refine ⟨hpx, fun y hy hpy => ?_⟩
      rcases List.mem_cons.mp hy with rfl | hy
      · exact absurd hpy hpa
      · exact hmax y hy hpy

/-- C10: when some mount point is a (component) prefix of the path,
`get_volume_disk_usage` answers for a matching disk of maximal mount-point
length with the triple `(total_space, available_space,
total_space - available_space)` — second component the available space,
third the used space — and the minute sampler binds the second component to
the `USED_DISK` gauge and the third to the `AVAILABLE_DISK` gauge; when no
mount point matches, it returns `(None, None, None)` and no disk gauge is
set. -/
theorem c10_volume_disk_usage (disks : List DiskInfo) (path : List String) :
    ((∃ d ∈ disks, d.mount.isPrefixOf path) →
      ∃ d ∈ disks, d.mount.isPrefixOf path = true ∧
        (∀ d2 ∈ disks, d2.mount.isPrefixOf path = true → mountKey d2 ≤ mountKey d) ∧
        get_volume_disk_usage disks path
          = (some d.total, some d.avail, some (d.total - d.avail)) ∧
        sampler_disk_gauges (get_volume_disk_usage disks path)
          = some { total_disk := d.total, used_disk := d.avail
                   available_disk := d.total - d.avail }) ∧
    ((∀ d ∈ disks, ¬ d.mount.isPrefixOf path) →
      get_volume_disk_usage disks path = (none, none, none) ∧
      sampler_disk_gauges (get_volume_disk_usage disks path) = none) := by
  haveI : IsTotal DiskInfo (fun a b => mountKey a ≤ mountKey b) :=
    ⟨fun a b => Nat.le_total _ _⟩
  haveI : IsTrans DiskInfo (fun a b => mountKey a ≤ mountKey b) :=
    ⟨fun a b c hab hbc => Nat.le_trans hab hbc⟩
  have hperm : List.Perm
      (List.insertionSort (fun a b => mountKey a ≤ mountKey b) disks) disks :=
    List.perm_insertionSort _ disks
  have hmem : ∀ x, x ∈ (List.insertionSort
      (fun a b => mountKey a ≤ mountKey b) disks).reverse ↔ x ∈ disks := by
    intro x
    rw [List.mem_reverse]
    exact hperm.mem_iff
  have hsorted : List.Pairwise (fun a b => mountKey b ≤ mountKey a)
      (List.insertionSort (fun a b => mountKey a ≤ mountKey b) disks).reverse := by
    rw [List.pairwise_reverse]
    exact List.sorted_insertionSort _ disks
  constructor
  · intro hex
    obtain ⟨d0, hd0, hp0⟩ := hex
    have hfind : ∃ x, (List.insertionSort (fun a b => mountKey a ≤ mountKey b)
        disks).reverse.find? (fun d => d.mount.isPrefixOf path) = some x := by
      rcases hfx : (List.insertionSort (fun a b => mountKey a ≤ mountKey b)
          disks).reverse.find? (fun d => d.mount.isPrefixOf path) with _ | x
      · have := List.find?_eq_none.mp hfx d0 ((hmem d0).mpr hd0)
        exact absurd hp0 this
      · exact ⟨x, hfx⟩
    obtain ⟨x, hfx⟩ := hfind
    obtain ⟨hpx, hmax⟩ := find_desc_max mountKey _ _ hsorted x hfx
    refine ⟨x, (hmem x).mp (List.mem_of_find?_eq_some hfx), hpx,
      fun d2 hd2 hp2 => hmax d2 ((hmem d2).mpr hd2) hp2, ?_, ?_⟩
    · simp only [get_volume_disk_usage, hfx]
    · simp only [get_volume_disk_usage, hfx]
      rfl
  · intro hnone
    have hfx : (List.insertionSort (fun a b => mountKey a ≤ mountKey b)
        disks).reverse.find? (fun d => d.mount.isPrefixOf path) = none :=
      List.find?_eq_none.mpr fun x hx => hnone x ((hmem x).mp hx)
    constructor
    · simp only [get_volume_disk_usage, hfx]
    · simp only [get_volume_disk_usage, hfx]
      rfl

/-- C10 witness: the theorem applied to a root mount and a longer `/data`
mount, both prefixes of the staging path — and to a disk list with no
matching mount. -/
theorem c10_volume_disk_usage_witness :
    (∃ d ∈ [DiskInfo.mk ["", "data"] 100 30, DiskInfo.mk [""] 500 400],
      d.mount.isPrefixOf ["", "data", "staging"] = true ∧
      (∀ d2 ∈ [DiskInfo.mk ["", "data"] 100 30, DiskInfo.mk [""] 500 400],
        d2.mount.isPrefixOf ["", "data", "staging"] = true →
        mountKey d2 ≤ mountKey d) ∧
      get_volume_disk_usage [DiskInfo.mk ["", "data"] 100 30, DiskInfo.mk [""] 500 400]
          ["", "data", "staging"]
        = (some d.total, some d.avail, some (d.total - d.avail)) ∧
      sampler_disk_gauges (get_volume_disk_usage
          [DiskInfo.mk ["", "data"] 100 30, DiskInfo.mk [""] 500 400]
          ["", "data", "staging"])
        = some { total_disk := d.total, used_disk := d.avail
                 available_disk := d.total - d.avail }) ∧
    (get_volume_disk_usage [DiskInfo.mk ["", "opt"] 9 1] ["", "data", "staging"]
        = (none, none, none) ∧
      sampler_disk_gauges (get_volume_disk_usage [DiskInfo.mk ["", "opt"] 9 1]
        ["", "data", "staging"]) = none) :=
  ⟨(c10_volume_disk_usage
      [DiskInfo.mk ["", "data"] 100 30, DiskInfo.mk [""] 500 400]
      ["", "data", "staging"]).1 (by decide),
    (c10_volume_disk_usage [DiskInfo.mk ["", "opt"] 9 1]
      ["", "data", "staging"]).2 (by decide)⟩

/-! ## Claim C8: manifest partition paths (`src/catalog/mod.rs`)

`partition_path` formats `date_naive()` of each bound with `%Y-%m-%d` and
compares the two strings.  The calendar conversion and formatting live in
the external `chrono` library; they are modelled here by the standard
civil-from-days algorithm (days are `millis.div_euclid(86400000)`, i.e.
floor division) and by zero-padded decimal rendering.  The year rendering is
modelled for years 0000–9999, where `%Y` is exactly the zero-padded 4-digit
year; the C8 theorem restricts itself to bounds whose dates fall in that
range. -/

/-- Day-of-era: days since the epoch shifted to era start, reduced mod the
146097-day Gregorian era. -/
def doeOf (z0 : Int) : Nat := ((z0 + 719468) % 146097).toNat

/-- Year-of-era from the day-of-era. -/
def yoeOf (doe : Nat) : Nat :=
  (doe - doe / 1460 + doe / 36524 - doe / 146096) / 365

/-- Day-of-year (March-based) from the day-of-era. -/
def doyOf (doe : Nat) : Nat :=
  doe - (365 * yoeOf doe + yoeOf doe / 4 - yoeOf doe / 100)

/-- March-based month index from the day-of-year. -/
def mpOf (doy : Nat) : Nat := (5 * doy + 2) / 153

/-- Day-of-month from the day-of-year. -/
def dayOf (doy : Nat) : Nat := doy - (153 * mpOf doy + 2) / 5 + 1

/-- Calendar month from the day-of-year. -/
def monthOf (doy : Nat) : Nat :=
  if mpOf doy < 10 then mpOf doy + 3 else mpOf doy - 9

/-- Civil `(year, month, day)` of a day number (days since 1970-01-01). -/
def civilFromDays (z0 : Int) : Int × Nat × Nat :=
  let era : Int := (z0 + 719468) / 146097
  let doe := doeOf z0
  let m := monthOf (doyOf doe)
  let y : Int := (yoeOf doe : Int) + era * 400
  (if m ≤ 2 then y + 1 else y, m, dayOf (doyOf doe))

/-- `DateTime::date_naive()` on a millisecond timestamp: the UTC calendar
date of its day number (floor division by 86400000 ms). -/
def date_naive (t : Int) : Int × Nat × Nat := civilFromDays (t / 86400000)

/-- The decimal digit character for `n` (meaningful for `n < 10`). -/
def digitChar (n : Nat) : Char := Char.ofNat (48 + n)

/-- Zero-padded 2-digit decimal rendering (`%m` / `%d`). -/
def pad2 (n : Nat) : String := ⟨[digitChar (n / 10 % 10), digitChar (n % 10)]⟩

/-- Zero-padded 4-digit decimal rendering (`%Y` for years 0000–9999). -/
def pad4 (n : Nat) : String :=
  ⟨[digitChar (n / 1000 % 10), digitChar (n / 100 % 10),
    digitChar (n / 10 % 10), digitChar (n % 10)]⟩

/-- `format("%Y-%m-%d")` of a civil date. -/
def fmtDate (y : Int) (m d : Nat) : String :=
  pad4 y.toNat ++ "-" ++ pad2 m ++ "-" ++ pad2 d

/-- The formatted UTC date of a millisecond timestamp, as `partition_path`
computes `lower` and `upper`. -/
def dateStr (t : Int) : String :=
  fmtDate (date_naive t).1 (date_naive t).2.1 (date_naive t).2.2

/-- `partition_path` from `src/catalog/mod.rs`: format both bounds' dates;
equal strings give `{stream}/date={lower}`, otherwise
`{stream}/date={lower}:{upper}` (`RelativePathBuf::from_iter` joins the two
components with `/`). -/
def partition_path (stream : String) (lower_bound upper_bound : Int) : String :=
  let lower := dateStr lower_bound
  let upper := dateStr upper_bound
  if lower == upper then stream ++ "/" ++ ("date=" ++ lower)
  else stream ++ "/" ++ ("date=" ++ lower ++ ":" ++ upper)

example : dateStr 0 = "1970-01-01" := by decide

example : dateStr 1704067199999 = "2023-12-31" := by decide

theorem doeOf_lt (z0 : Int) : doeOf z0 < 146097 := by
  unfold doeOf
  have h1 := Int.emod_nonneg (z0 + 719468) (by norm_num : (146097 : Int) ≠ 0)
  have h2 := Int.emod_lt_of_pos (z0 + 719468) (by norm_num : (0 : Int) < 146097)
  omega

theorem doyOf_le (doe : Nat) (h : doe < 146097) : doyOf doe ≤ 466 := by
  unfold doyOf yoeOf
  omega

theorem monthOf_lt (doy : Nat) (h : doy ≤ 466) : monthOf doy < 100 := by
  unfold monthOf mpOf
  by_cases h10 : (5 * doy + 2) / 153 < 10
  · rw [if_pos h10]; omega
  · rw [if_neg h10]; omega

theorem dayOf_lt (doy : Nat) : dayOf doy < 100 := by
  unfold dayOf mpOf
  omega

theorem digitChar_inj : ∀ a, a < 10 → ∀ b, b < 10 →
    digitChar a = digitChar b → a = b := by decide

theorem dash_data : "-".data = [Char.ofNat 45] := rfl

theorem fmtDate_data (y : Int) (m d : Nat) :
    (fmtDate y m d).data
      = [digitChar (y.toNat / 1000 % 10), digitChar (y.toNat / 100 % 10),
          digitChar (y.toNat / 10 % 10), digitChar (y.toNat % 10), Char.ofNat 45,
          digitChar (m / 10 % 10), digitChar (m % 10), Char.ofNat 45,
          digitChar (d / 10 % 10), digitChar (d % 10)] := by
  unfold fmtDate pad4 pad2
  simp [String.data_append, dash_data]

theorem fmtDate_inj (y1 y2 : Int) (m1 d1 m2 d2 : Nat)
    (hy1a : 0 ≤ y1) (hy1b : y1 ≤ 9999) (hy2a : 0 ≤ y2) (hy2b : y2 ≤ 9999)
    (hm1 : m1 < 100) (hd1 : d1 < 100) (hm2 : m2 < 100) (hd2 : d2 < 100)
    (h : fmtDate y1 m1 d1 = fmtDate y2 m2 d2) :
    y1 = y2 ∧ m1 = m2 ∧ d1 = d2 := by
  have hdata := congrArg String.data h
  rw [fmtDate_data, fmtDate_data] at hdata
  simp only [List.cons.injEq, and_true] at hdata
  obtain ⟨e1, e2, e3, e4, _, e5, e6, _, e7, e8⟩ := hdata
  have m10 : ∀ k : Nat, k % 10 < 10 := fun k => Nat.mod_lt _ (by norm_num)
  have f1 := digitChar_inj _ (m10 _) _ (m10 _) e1
  have f2 := digitChar_inj _ (m10 _) _ (m10 _) e2
  have f3 := digitChar_inj _ (m10 _) _ (m10 _) e3
  have f4 := digitChar_inj _ (m10 _) _ (m10 _) e4
  have f5 := digitChar_inj _ (m10 _) _ (m10 _) e5
  have f6 := digitChar_inj _ (m10 _) _ (m10 _) e6
  have f7 := digitChar_inj _ (m10 _) _ (m10 _) e7
  have f8 := digitChar_inj _ (m10 _) _ (m10 _) e8
  refine ⟨?_, by omega, by omega⟩
  have ht : y1.toNat = y2.toNat := by omega
  omega

/-- C8: for `lower_bound ≤ upper_bound` with both dates in years 0000–9999,
`partition_path` yields `{stream}/date=YYYY-MM-DD` (the bounds' common UTC
calendar date) when both bounds fall on the same UTC date, and
`{stream}/date=YYYY-MM-DD:YYYY-MM-DD` (lower date, then upper date)
otherwise. -/
theorem c8_partition_path (stream : String) (lo hi : Int) (_h1 : lo ≤ hi)
    (hylo1 : 0 ≤ (date_naive lo).1) (hylo2 : (date_naive lo).1 ≤ 9999)
    (hyhi1 : 0 ≤ (date_naive hi).1) (hyhi2 : (date_naive hi).1 ≤ 9999) :
    (date_naive lo = date_naive hi →
      partition_path stream lo hi = stream ++ "/" ++ ("date=" ++ dateStr lo)) ∧
    (date_naive lo ≠ date_naive hi →
      partition_path stream lo hi
        = stream ++ "/" ++ ("date=" ++ dateStr lo ++ ":" ++ dateStr hi)) := by
  constructor
  · intro hdates
    have hstr : dateStr lo = dateStr hi := by
      unfold dateStr
      rw [hdates]
    simp only [partition_path, hstr, beq_self_eq_true, if_true]
  · intro hne
    have hmlo : (date_naive lo).2.1 < 100 :=
      monthOf_lt _ (doyOf_le _ (doeOf_lt (lo / 86400000)))
    have hmhi : (date_naive hi).2.1 < 100 :=
      monthOf_lt _ (doyOf_le _ (doeOf_lt (hi / 86400000)))
    have hdlo : (date_naive lo).2.2 < 100 := dayOf_lt _
    have hdhi : (date_naive hi).2.2 < 100 := dayOf_lt _
    have hstr : dateStr lo ≠ dateStr hi := by
      intro hcontra
      have hc : fmtDate (date_naive lo).1 (date_naive lo).2.1 (date_naive lo).2.2
          = fmtDate (date_naive hi).1 (date_naive hi).2.1 (date_naive hi).2.2 :=
        hcontra
      obtain ⟨hy, hm, hd⟩ := fmtDate_inj _ _ _ _ _ _ hylo1 hylo2 hyhi1 hyhi2
        hmlo hdlo hmhi hdhi hc
      apply hne
      rw [Prod.ext_iff, Prod.ext_iff]
      exact ⟨hy, hm, hd⟩
    have hbeq : (dateStr lo == dateStr hi) = false := by
      rw [beq_eq_false_iff_ne]
      exact hstr
    simp only [partition_path, hbeq, Bool.false_eq_true, if_false]

/-- C8 witness: the theorem applied at a same-date pair and at a pair one day
apart. -/
theorem c8_partition_path_witness :
    partition_path "s" 0 3600000 = "s" ++ "/" ++ ("date=" ++ dateStr 0) ∧
    partition_path "s" 0 86400000
      = "s" ++ "/" ++ ("date=" ++ dateStr 0 ++ ":" ++ dateStr 86400000) :=
  ⟨(c8_partition_path "s" 0 3600000 (by decide) (by decide) (by decide)
      (by decide) (by decide)).1 (by decide),
    (c8_partition_path "s" 0 86400000 (by decide) (by decide) (by decide)
      (by decide) (by decide)).2 (by decide)⟩

end Parseable
